import Mathlib

/-!
A shallow embedding of the recurring-order subsystem of the delivery
back-office API:

* the JavaScript `Date` day arithmetic used by `generateRecurringDates`
  (src/src/controllers/order.controller.ts, lines 20-82),
* the order-number allocator `generateUniqueOrderNumbers`
  (src/unnamed/part_007),
* the order lifecycle handlers `createOrder`, `updateOrder`, `deleteOrder`
  (src/src/controllers/order.controller.ts) and the catalog-item handler
  `deleteItem` (src/src/controllers/item.controller.ts).

The controller files contain two revisions separated by a document marker;
the first (earlier in the file) is the current revision and is the one
embedded here.  Where the older revision matters for a claim it is noted
in comments.

Dates are modelled as day ordinals: days elapsed since 0000-01-01
(proleptic Gregorian).  Every date mutation performed by the source
(`setDate`, `setMonth`, `setFullYear`) keeps the time-of-day fixed, so a
whole-day model of the `Date` value is exact, and `Date` comparisons
(`currentDate <= endDate`) compare the underlying instant, i.e. the
ordinal.
-/

namespace Delivery


/-- Gregorian leap-year rule, as implemented by JavaScript `Date`. -/
def isLeap (y : Nat) : Bool :=
  (y % 4 == 0 && y % 100 != 0) || y % 400 == 0

def daysInYear (y : Nat) : Nat := if isLeap y then 366 else 365

/-- Month lengths, January first (JS month indices are 0-based). -/
def monthLens (y : Nat) : List Nat :=
  [31, if isLeap y then 29 else 28, 31, 30, 31, 30, 31, 31, 30, 31, 30, 31]

/-- Days elapsed before January 1 of year `y`, counted from 0000-01-01. -/
def daysBeforeYear : Nat → Nat
  | 0 => 0
  | y + 1 => daysBeforeYear y + daysInYear y

/-- Locate offset `n` in a list of segment lengths: returns the segment
index and the offset inside that segment (both 0-based). -/
def splitSeg : List Nat → Nat → Nat × Nat
  | [], n => (0, n)
  | l :: ls, n =>
    if n < l then (0, n)
    else
      let p := splitSeg ls (n - l)
      (p.1 + 1, p.2)

/-- Find the year containing day ordinal `n`, scanning upward from year
`y`.  `fuel` bounds the scan; any `fuel > n` is enough because each step
removes at least 365 days. -/
def findYear : Nat → Nat → Nat → Nat × Nat
  | 0, y, n => (y, n)
  | fuel + 1, y, n =>
    if n < daysInYear y then (y, n) else findYear fuel (y + 1) (n - daysInYear y)

/-- Ordinal to (year, 0-based month, 1-based day-of-month): the values JS
`getFullYear` / `getMonth` / `getDate` read back from a normalised date. -/
def fromOrdinal (n : Nat) : Nat × Nat × Nat :=
  ((findYear (n + 1) 0 n).1,
   (splitSeg (monthLens (findYear (n + 1) 0 n).1) (findYear (n + 1) 0 n).2).1,
   (splitSeg (monthLens (findYear (n + 1) 0 n).1) (findYear (n + 1) 0 n).2).2 + 1)

/-- JS `MakeDay y m d` for `m < 12` and `1 ≤ d` (the day may overflow the
month): the ordinal of the first day of month `m` plus `d - 1`. -/
def makeDay (y m d : Nat) : Nat :=
  daysBeforeYear y + ((monthLens y).take m).sum + (d - 1)

/-- Models `currentDate.setDate(currentDate.getDate() + k)`: JS renormalises the
overflowed day-of-month, which adds exactly `k` days to the ordinal
(proved in `jsAddDays_eq`). -/
def jsAddDays (n k : Nat) : Nat :=
  makeDay (fromOrdinal n).1 (fromOrdinal n).2.1 ((fromOrdinal n).2.2 + k)

/-- Models `currentDate.setMonth(currentDate.getMonth() + k)`: the month index is
normalised into a (year, month) pair and the unchanged day-of-month may
overflow into the following month. -/
def jsAddMonths (n k : Nat) : Nat :=
  makeDay ((12 * (fromOrdinal n).1 + (fromOrdinal n).2.1 + k) / 12)
    ((12 * (fromOrdinal n).1 + (fromOrdinal n).2.1 + k) % 12)
    (fromOrdinal n).2.2

/-- Models `currentDate.setFullYear(currentDate.getFullYear() + k)`. -/
def jsAddYears (n k : Nat) : Nat :=
  makeDay ((fromOrdinal n).1 + k) (fromOrdinal n).2.1 (fromOrdinal n).2.2

/-- JS `getDay` (0 = Sunday, …, 6 = Saturday).  Ordinal 0 (0000-01-01) is
a Saturday: it falls 719528 days before 1970-01-01, a Thursday, and
719528 ≡ 5 (mod 7). -/
def jsGetDay (n : Nat) : Nat := (n + 6) % 7

/-- Ordinal of the first day of global month `M` (year `M / 12`, month
`M % 12`). -/
def firstOfMonth (M : Nat) : Nat :=
  daysBeforeYear (M / 12) + ((monthLens (M / 12)).take (M % 12)).sum

/-- The source's weekend-skipping `while` loop.  Two unrollings always
suffice (at most two consecutive weekend days), so the loop is modelled
with fuel 2; `skipWeekend_not_weekend` proves the fuel is enough. -/
def skipWeekendF : Nat → Nat → Nat
  | 0, n => n
  | fuel + 1, n =>
    if jsGetDay n = 0 ∨ jsGetDay n = 6 then skipWeekendF fuel (n + 1) else n

def skipWeekend (n : Nat) : Nat := skipWeekendF 2 n

/-- The frequency codes handled by the `switch` in
`generateRecurringDates` — exactly the codes listed in spec §4.2.  (The
Mongoose `Frequency` enum additionally contains `biweekly`, which the
switch does not handle; the claims quantify over the handled codes.) -/
inductive Frequency
  | daily | weekdays | weekly | every_2nd_week | every_3rd_week
  | every_5th_week | six_weeks | eight_weeks | twice_in_a_week
  | monthly | quarterly | semi_annually | annually | one_time
  deriving DecidableEq

/-- One advancement step of the generator's `switch`.  For
`twice_in_a_week` the source runs `setDate(getDate() + 3.5)`; `ToInteger`
truncates the fractional day argument, so the date advances by 3 days.
`one_time` never reaches the switch's fall-through (the case returns
before advancing); the value here is irrelevant and never used. -/
def stepDate : Frequency → Nat → Nat
  | .daily, n => jsAddDays n 1
  | .weekdays, n => skipWeekend (jsAddDays n 1)
  | .weekly, n => jsAddDays n 7
  | .every_2nd_week, n => jsAddDays n 14
  | .every_3rd_week, n => jsAddDays n 21
  | .every_5th_week, n => jsAddDays n 35
  | .six_weeks, n => jsAddDays n 42
  | .eight_weeks, n => jsAddDays n 56
  | .twice_in_a_week, n => jsAddDays n 3
  | .monthly, n => jsAddMonths n 1
  | .quarterly, n => jsAddMonths n 3
  | .semi_annually, n => jsAddMonths n 6
  | .annually, n => jsAddYears n 1
  | .one_time, n => n

/-- The generator's `while (currentDate <= endDate)` loop.  Each
iteration strictly advances the date (`stepDate_gt`), so `e + 1 - s` fuel
dominates the number of iterations that can still satisfy the guard; when
the fuel is exhausted the guard is already false and `[]` agrees with the
loop's behaviour. -/
def genDatesF (f : Frequency) (endD : Nat) : Nat → Nat → List Nat
  | 0, _ => []
  | fuel + 1, cur =>
    if cur ≤ endD then
      cur :: (if f = .one_time then [] else genDatesF f endD fuel (stepDate f cur))
    else []

/-- The generator `generateRecurringDates` (order.controller.ts lines 20-82): push the
current date, advance per frequency, stop once the date exceeds the end
date; `one_time` returns right after the first push. -/
def generateRecurringDates (startD endD : Nat) (f : Frequency) : List Nat :=
  genDatesF f endD (endD + 1 - startD) startD

/-!
## Order-number allocation (src/unnamed/part_007)

`generateUniqueOrderNumbers` builds strings `` `A-${year}-${seq}` `` with
the sequence zero-padded to four digits.  Strings are modelled through
their character lists; decimal rendering models JavaScript
`Number#toString` for naturals (no leading zeros, `"0"` for zero).  The
database is a list of the order-number strings currently in storage: the
function's three queries (`findOne` with a year-prefix regex sorted
descending, and the two `$in` existence checks) become pure functions of
that list.  The storage is static across the call — the model of a single
call, which is all the claims quantify over.
-/

/-- Little-endian decimal digits of `n`; any `fuel > n` is enough. -/
def natDigitsF : Nat → Nat → List Nat
  | 0, _ => []
  | fuel + 1, n => if n = 0 then [] else n % 10 :: natDigitsF fuel (n / 10)

/-- JavaScript `Number#toString` for a natural number, as characters. -/
def natChars (n : Nat) : List Char :=
  if n = 0 then ['0'] else (natDigitsF (n + 1) n).reverse.map Nat.digitChar

/-- JavaScript `String#padStart(4, "0")`. -/
def padStart4 (l : List Char) : List Char :=
  List.replicate (4 - l.length) '0' ++ l

/-- The characters of the template prefix `` `A-${year}-` ``. -/
def yearPrefix (year : Nat) : List Char :=
  'A' :: '-' :: (natChars year ++ ['-'])

/-- The order-number string
`` `A-${year}-${sequence.toString().padStart(4, "0")}` ``. -/
def orderNumberStr (year seq : Nat) : String :=
  String.mk (yearPrefix year ++ padStart4 (natChars seq))

/-- Decimal reading of a character list (value of the digits, leading
zeros ignored) — used to invert `orderNumberStr` and to model
`parseInt` on the digit strings the system stores.  (On non-numeric
input `parseInt` yields NaN instead; no claim observes that case.) -/
def charsToNat (l : List Char) : Nat :=
  l.foldl (fun acc c => 10 * acc + (c.toNat - 48)) 0

/-- The split of `orderNumber.split("-")`. -/
def splitDashAux : List Char → List Char → List (List Char)
  | [], acc => [acc.reverse]
  | c :: cs, acc =>
    if c = '-' then acc.reverse :: splitDashAux cs []
    else splitDashAux cs (c :: acc)

/-- Models `parseInt(lastOrder.orderNumber.split("-")[2])`. -/
def parseSeq (s : String) : Nat :=
  charsToNat ((splitDashAux s.data []).getD 2 [])

/-- Lexicographic comparison of character lists, the order MongoDB's
bytewise string sort induces on the ASCII strings involved. -/
def charListLt : List Char → List Char → Bool
  | [], [] => false
  | [], _ :: _ => true
  | _ :: _, [] => false
  | a :: as, b :: bs =>
    if a < b then true else if b < a then false else charListLt as bs

def strLt (a b : String) : Bool := charListLt a.data b.data

/-- Models the `findOne` filtered by the year-prefix regex and sorted by
`orderNumber` descending: the lexicographically greatest stored string
carrying the year prefix. -/
def lexMax (l : List String) : Option String :=
  l.foldl (fun acc s =>
    match acc with
    | none => some s
    | some t => if strLt t s then some s else some t) none

/-- The prologue of each allocator loop iteration: the sequence following
the greatest stored number with the year prefix, or 1 if none exists. -/
def startSeq (year : Nat) (storage : List String) : Nat :=
  match lexMax (storage.filter (fun s => (yearPrefix year).isPrefixOf s.data)) with
  | none => 1
  | some s => parseSeq s + 1

/-- The proposed batch: `count` consecutive sequences from `start`. -/
def batchNumbers (year start count : Nat) : List String :=
  (List.range count).map (fun i => orderNumberStr year (start + i))

/-- The allocator's `while (orderNumbers.length < count && attempts < 200)`
loop.  `orderNumbers` is never appended to, so the guard is
`0 < count && attempts < 200`; the argument counts the attempts still
allowed.  Each iteration re-reads the same storage, so it recomputes the
same batch; the iterations are nevertheless embedded one by one. -/
def allocLoop (year count : Nat) (storage : List String) : Nat → Option (List String)
  | 0 => none
  | attemptsLeft + 1 =>
    if 0 < count then
      if (batchNumbers year (startSeq year storage) count).all
          (fun s => !storage.contains s) then
        some (batchNumbers year (startSeq year storage) count)
      else allocLoop year count storage attemptsLeft
    else none

/-- The timestamp-seeded fallback batch (`Date.now()` is the model's
`timestamp` parameter). -/
def fallbackNumbers (year timestamp count : Nat) : List String :=
  (List.range count).map (fun i => orderNumberStr year (timestamp + i))

/-- The allocator `generateUniqueOrderNumbers` (src/unnamed/part_007):
run the retry loop; on exhaustion, if any numbers were requested, test the
timestamp-seeded fallback against storage; otherwise throw. -/
def generateUniqueOrderNumbers (year count : Nat) (storage : List String)
    (timestamp : Nat) : Except String (List String) :=
  match allocLoop year count storage 200 with
  | some batch => .ok batch
  | none =>
    if 0 < count then
      if (fallbackNumbers year timestamp count).all
          (fun s => !storage.contains s) then
        .ok (fallbackNumbers year timestamp count)
      else .error "Unable to generate unique order numbers after multiple attempts"
    else .error "Unable to generate unique order numbers after multiple attempts"

/-- Value of a little-endian digit list. -/
def digitsVal : List Nat → Nat
  | [] => 0
  | d :: ds => d + 10 * digitsVal ds

/-!
## Data model (src/src/models) and storage

Only the fields some claimed behaviour branches on are carried.  Fields
the handlers copy verbatim and never inspect (`paymentMethod`,
`driverNote`, `articleNumber`, `assignedDriver`, the per-line amounts,
the image lists, timestamps) are omitted: no claim observes them.
-/

inductive OrderStatus
  | draft | pending | in_progress | out_for_delivery | delivered
  | denied_by_customer | customer_not_available | completed | cancelled
  | paused
  deriving DecidableEq

inductive CustomerStatus
  | active | on_vacation | inactive | deleted
  deriving DecidableEq

/-- An order line item, reduced to its catalog-item reference. -/
structure LineItem where
  itemId : Nat
  deriving DecidableEq

structure OrderDoc where
  id : Nat
  orderNumber : String
  customer : Nat
  items : List LineItem
  startDate : Nat
  endDate : Nat
  frequency : Option Frequency
  status : OrderStatus
  mainOrder : Bool
  originalOrderNumber : Option String
  totalNetAmount : Nat
  totalGrossAmount : Nat
  deriving DecidableEq

structure CustomerDoc where
  id : Nat
  status : CustomerStatus
  deriving DecidableEq

/-- A catalog item (`Item` model); the filter-type/dimension fields are
not inspected by any claimed behaviour. -/
structure CatItem where
  id : Nat
  isActive : Bool
  deriving DecidableEq

structure DB where
  orders : List OrderDoc
  customers : List CustomerDoc
  catalog : List CatItem
  nextId : Nat
  deriving DecidableEq

/-- Canonical series number of an order: the referenced main number for a
series member, the order's own number for a main (or standalone) order. -/
def seriesKey (o : OrderDoc) : String :=
  o.originalOrderNumber.getD o.orderNumber

/-- The data-model invariant maintained by the lifecycle manager (spec
§3): document ids and order numbers are unique, a main order carries no
`originalOrderNumber` back-reference, and every series member references
an existing main order. -/
def DBInv (db : DB) : Prop :=
  (db.orders.map (fun o => o.id)).Nodup ∧
  (db.orders.map (fun o => o.orderNumber)).Nodup ∧
  (∀ o ∈ db.orders, o.mainOrder = true → o.originalOrderNumber = none) ∧
  (∀ o ∈ db.orders, o.mainOrder = false → o.originalOrderNumber ≠ none →
    ∃ m ∈ db.orders, m.mainOrder = true ∧
      some m.orderNumber = o.originalOrderNumber)

/-!
## Order deletion (current revision, order.controller.ts lines 694-775)
-/

/-- The series-wide delete list `ordersToDelete` computed by
`deleteOrder` for a deletable target: for a main order, itself plus all
members referencing it; for a member whose main order exists, that main
order plus all its members (the target included); otherwise just the
target. -/
def deleteSet (db : DB) (order : OrderDoc) : List OrderDoc :=
  if order.mainOrder then
    order :: db.orders.filter (fun o =>
      o.originalOrderNumber == some order.orderNumber && !o.mainOrder)
  else
    match order.originalOrderNumber with
    | some x =>
      match db.orders.find? (fun o => o.orderNumber == x && o.mainOrder) with
      | some mainOrd =>
        mainOrd :: db.orders.filter (fun o =>
          o.originalOrderNumber == some x && !o.mainOrder)
      | none => [order]
    | none => [order]

/-- The handler `deleteOrder`: 404 when the id is unknown, 400 unless the
status is `pending` or `draft`; otherwise `deleteMany` the ids of the
whole series (`deleteSet`). -/
def deleteOrder (db : DB) (oid : Nat) : DB × Except String Unit :=
  match db.orders.find? (fun o => o.id == oid) with
  | none => (db, .error "Order not found")
  | some order =>
    if order.status ≠ OrderStatus.pending ∧ order.status ≠ OrderStatus.draft then
      (db, .error "Can only delete pending or draft orders")
    else
      ({ db with orders := db.orders.filter (fun o =>
          !((deleteSet db order).map (fun d => d.id)).contains o.id) },
        .ok ())

/-- Concrete storage for the C3 witness: a 3-order series (main 1 with
members 2 and 3, all pending) plus an unrelated main order 4. -/
def c3db : DB :=
  ⟨[⟨1, "A-2024-0001", 7, [], 0, 14, some .weekly, .pending, true, none, 5, 6⟩,
    ⟨2, "A-2024-0002", 7, [], 7, 7, some .weekly, .pending, false,
      some "A-2024-0001", 5, 6⟩,
    ⟨3, "A-2024-0003", 7, [], 14, 14, some .weekly, .pending, false,
      some "A-2024-0001", 5, 6⟩,
    ⟨4, "A-2024-0004", 7, [], 0, 0, none, .pending, true, none, 5, 6⟩],
   [⟨7, .active⟩], [], 10⟩

/-- The series member targeted by the C3 witness. -/
def c3target : OrderDoc :=
  ⟨2, "A-2024-0002", 7, [], 7, 7, some .weekly, .pending, false,
    some "A-2024-0001", 5, 6⟩

/-!
## Catalog-item deletion (current revision, item.controller.ts lines 204-238)

The current revision's `deleteItem` runs `item.deleteOne()` — it removes
the document.  (Only the older revision, lines 338-355 after the document
marker, set `isActive = false` instead.)
-/

/-- The handler `deleteItem`: 404 when the id is unknown, otherwise
delete the found document. -/
def deleteItem (catalog : List CatItem) (iid : Nat) :
    List CatItem × Except String Unit :=
  match catalog.find? (fun it => it.id == iid) with
  | none => (catalog, .error "Item not found")
  | some _ => (catalog.filter (fun it => !(it.id == iid)), .ok ())

/-!
## Order creation and update (current revision)

JavaScript truthiness drives the handlers' checks.  Request fields are
modelled as follows: a missing key, a `null`/`undefined` value and an
empty string are `none` (all falsy); numeric amounts carry their value,
`0` being falsy exactly as in JS; a present `items` array is `some list`
— a present *empty* array is truthy in JS, so it passes the
missing-field test and is caught only by the separate length check.  The
request types carry exactly the allowed update fields, so the dynamic
allowlist test (`updates.every(allowedUpdates.includes)`) is satisfied by
construction; fields the handlers copy verbatim without branching
(`paymentMethod`, `driverNote`, `articleNumber`, `assignedDriver`) are
omitted as in `OrderDoc`.
-/

structure CreateReq where
  customer : Option Nat
  items : Option (List LineItem)
  startDate : Option Nat
  endDate : Option Nat
  frequency : Option Frequency
  totalNetAmount : Nat
  totalGrossAmount : Nat
  status : OrderStatus
  deriving DecidableEq

/-- An update request.  The outer `Option` is key presence; for `items`,
`startDate`, `endDate` and `frequency` the inner `Option` is the value's
truthiness (`none` = present but `null`/empty). -/
structure UpdateReq where
  customer : Option Nat
  items : Option (Option (List LineItem))
  startDate : Option (Option Nat)
  endDate : Option (Option Nat)
  frequency : Option (Option Frequency)
  status : Option OrderStatus
  totalNetAmount : Option Nat
  totalGrossAmount : Option Nat
  deriving DecidableEq

/-- The `fieldValidations` array common to `createOrder` (lines 176-183)
and `updateOrder` (lines 475-506): one truthiness flag and one message
per mandatory field, in the source's fixed order. -/
def fieldChecks (itemsOk startOk endOk freqOk netOk grossOk : Bool) :
    List (Bool × String) :=
  [(itemsOk, "Items are required for non-draft orders"),
   (startOk, "Start date is required for non-draft orders"),
   (endOk, "End date is required for non-draft orders"),
   (freqOk, "Frequency is required for non-draft orders"),
   (netOk, "Total net amount is required for non-draft orders"),
   (grossOk, "Total gross amount is required for non-draft orders")]

/-- The source's `missingFields` computation: filter the failed checks,
keep their messages; the handler responds with the head. -/
def missingMsgs (checks : List (Bool × String)) : List String :=
  (checks.filter (fun p => !p.1)).map (fun p => p.2)

/-- The `createOrder` validation instance: request values only. -/
def createChecks (req : CreateReq) : List (Bool × String) :=
  fieldChecks req.items.isSome req.startDate.isSome req.endDate.isSome
    req.frequency.isSome (req.totalNetAmount != 0) (req.totalGrossAmount != 0)

/-- The `updateOrder` validation instance over the merged (incoming ∪
stored) field set.  A stored `items` array and stored `Date`s are always
truthy; a stored frequency may be absent; stored totals are falsy when
0. -/
def updChecks (ord : OrderDoc) (req : UpdateReq) : List (Bool × String) :=
  fieldChecks
    (match req.items with | none => true | some v => v.isSome)
    (match req.startDate with | none => true | some v => v.isSome)
    (match req.endDate with | none => true | some v => v.isSome)
    (match req.frequency with | none => ord.frequency.isSome | some v => v.isSome)
    (match req.totalNetAmount with | none => ord.totalNetAmount != 0 | some v => v != 0)
    (match req.totalGrossAmount with | none => ord.totalGrossAmount != 0 | some v => v != 0)

/-- Per-line-item catalog validation (`Item.findById` + `isActive`),
shared by create and update.  (The thrown messages interpolate the item
id; the interpolation is dropped here, observed by no claim.) -/
def validateItems (catalog : List CatItem) : List LineItem → Except String (List LineItem)
  | [] => .ok []
  | li :: rest =>
    match catalog.find? (fun it => it.id == li.itemId) with
    | none => .error "Item not found"
    | some it =>
      if !it.isActive then .error "Item is not active"
      else
        match validateItems catalog rest with
        | .error e => .error e
        | .ok r => .ok (li :: r)

/-- The handler `createOrder` (order.controller.ts lines 84-299).
`year` models `new Date().getFullYear()`, `today` models the `new
Date()` defaults of the draft path, `timestamp` models `Date.now()`
inside the allocator.  Note the source hardcodes `status:
OrderStatus.PENDING` on every non-draft order it persists (line 255),
whatever status the request carried. -/
def createOrder (db : DB) (req : CreateReq) (year today timestamp : Nat) :
    DB × Except String (List OrderDoc) :=
  match req.customer with
  | none => (db, .error "Customer is required")
  | some cid =>
    match db.customers.find? (fun c => c.id == cid) with
    | none => (db, .error "Customer not found")
    | some cust =>
      if cust.status ≠ CustomerStatus.active then
        (db, .error "Customer is not active")
      else if req.status = OrderStatus.draft then
        match generateUniqueOrderNumbers year 1
            (db.orders.map (fun o => o.orderNumber)) timestamp with
        | .error e => (db, .error e)
        | .ok nums =>
          let order : OrderDoc :=
            ⟨db.nextId, nums.getD 0 "", cid, req.items.getD [],
             req.startDate.getD today, req.endDate.getD today,
             req.frequency, OrderStatus.draft, true, none,
             req.totalNetAmount, req.totalGrossAmount⟩
          ({ db with
              orders := db.orders ++ [order]
              nextId := db.nextId + 1 }, .ok [order])
      else
        match missingMsgs (createChecks req) with
        | m :: _ => (db, .error m)
        | [] =>
          if req.items.getD [] = [] then
            (db, .error "At least one item must be provided for non-draft orders")
          else
            match validateItems db.catalog (req.items.getD []) with
            | .error e => (db, .error e)
            | .ok pItems =>
              let dates := generateRecurringDates (req.startDate.getD 0)
                (req.endDate.getD 0) (req.frequency.getD .daily)
              match generateUniqueOrderNumbers year dates.length
                  (db.orders.map (fun o => o.orderNumber)) timestamp with
              | .error e => (db, .error e)
              | .ok nums =>
                let created := (List.range dates.length).map (fun i =>
                  (⟨db.nextId + i, nums.getD i "", cid, pItems,
                    dates.getD i 0,
                    if i = 0 then req.endDate.getD 0 else dates.getD i 0,
                    req.frequency, OrderStatus.pending, i == 0,
                    if i = 0 then none else some (nums.getD 0 ""),
                    req.totalNetAmount, req.totalGrossAmount⟩ : OrderDoc))
                ({ db with
                    orders := db.orders ++ created
                    nextId := db.nextId + dates.length }, .ok created)

/-- The update handler's customer re-validation (lines 463-471). -/
def updCustomer (db : DB) (req : UpdateReq) : Except String Unit :=
  match req.customer with
  | none => .ok ()
  | some cid =>
    match db.customers.find? (fun c => c.id == cid) with
    | none => .error "Customer not found"
    | some cust =>
      if cust.status ≠ CustomerStatus.active then .error "Customer is not active"
      else .ok ()

/-- The update handler's items processing (lines 522-558): a draft order
may clear its items; a non-draft update requires a non-empty, valid
list. -/
def updItems (db : DB) (ord : OrderDoc) (req : UpdateReq) :
    Except String (Option (List LineItem)) :=
  match req.items with
  | none => .ok none
  | some v =>
    if ord.status = OrderStatus.draft ∧ v.getD [] = [] then .ok (some [])
    else
      match v with
      | none => .error "At least one item must be provided for non-draft orders"
      | some l =>
        if l = [] then .error "At least one item must be provided for non-draft orders"
        else
          match validateItems db.catalog l with
          | .error e => .error e
          | .ok p => .ok (some p)

/-- `updates.some(u => ["frequency", "startDate", "endDate"].includes(u))`. -/
def isRecurringUpdate (req : UpdateReq) : Bool :=
  req.frequency.isSome || req.startDate.isSome || req.endDate.isSome

/-- Merged new start date: `new Date(req.body.startDate)` when the key is
present (`new Date(null)` is the epoch, and a `Date` object is always
truthy), the stored date otherwise. -/
def newStartN (ord : OrderDoc) (req : UpdateReq) : Nat :=
  match req.startDate with
  | none => ord.startDate
  | some v => v.getD 0

def newEndN (ord : OrderDoc) (req : UpdateReq) : Nat :=
  match req.endDate with
  | none => ord.endDate
  | some v => v.getD 0

/-- Merged new frequency; the only falsy component of the regeneration
guard `newStartDate && newEndDate && newFrequency` (dates are objects). -/
def newFreqO (ord : OrderDoc) (req : UpdateReq) : Option Frequency :=
  match req.frequency with
  | none => ord.frequency
  | some v => v

/-- The final `updates.forEach` assignment plus `order.save()`: every
present request field overwrites the stored one (`items` with its
processed value). -/
def applyReq (ord : OrderDoc) (req : UpdateReq)
    (pItems : Option (List LineItem)) : OrderDoc :=
  { ord with
    customer := req.customer.getD ord.customer
    items := pItems.getD ord.items
    startDate := (match req.startDate with | none => ord.startDate | some v => v.getD 0)
    endDate := (match req.endDate with | none => ord.endDate | some v => v.getD 0)
    frequency := (match req.frequency with | none => ord.frequency | some v => v)
    status := req.status.getD ord.status
    totalNetAmount := req.totalNetAmount.getD ord.totalNetAmount
    totalGrossAmount := req.totalGrossAmount.getD ord.totalGrossAmount }

/-- The keep-predicate complementing the regeneration `deleteMany`
(lines 567-571): an order survives unless it is a *pending* member of
the updated main order's series. -/
def keepOnRegen (mainNum : String) (o : OrderDoc) : Bool :=
  !(o.originalOrderNumber == some mainNum && !o.mainOrder &&
    o.status == OrderStatus.pending)

/-- One regenerated series member (the loop body at lines 603-637): the
i-th delivery date (i ≥ 1), the (i-1)-th freshly allocated number, the
merged request ∪ stored field values, status `pending`, `mainOrder`
false, back-reference to the main order. -/
def regenMember (ord : OrderDoc) (req : UpdateReq)
    (pItems : Option (List LineItem)) (f : Frequency) (nums : List String)
    (dates : List Nat) (nextId i : Nat) : OrderDoc :=
  ⟨nextId + i, nums.getD (i - 1) "", ord.customer, pItems.getD ord.items,
   dates.getD i 0, dates.getD i 0, some f, OrderStatus.pending, false,
   some ord.orderNumber, req.totalNetAmount.getD ord.totalNetAmount,
   req.totalGrossAmount.getD ord.totalGrossAmount⟩

/-- The regenerated members: one per delivery date after the first
(`if (i === 0) continue`). -/
def regenMembers (ord : OrderDoc) (req : UpdateReq)
    (pItems : Option (List LineItem)) (f : Frequency) (nums : List String)
    (dates : List Nat) (nextId : Nat) : List OrderDoc :=
  ((List.range dates.length).drop 1).map
    (regenMember ord req pItems f nums dates nextId)

/-- The recurring-order section of `updateOrder` (current revision,
lines 560-652).  The branch condition is `isRecurringUpdate &&
order.mainOrder` — the current revision carries no draft exemption
despite its own comment (the older revision, line 1870, additionally
required `order.status !== OrderStatus.DRAFT`).  Inside: delete the
series' pending members, then — when the merged frequency is truthy —
regenerate dates, allocate `dates.length - 1` numbers in one batch
against the post-deletion storage (throwing on failure, after the
deletion), and persist one pending member per date after the first.  A
schedule update on a non-draft member whose main order exists is
rejected instead. -/
def updRegen (db : DB) (ord : OrderDoc) (req : UpdateReq)
    (pItems : Option (List LineItem)) (year timestamp : Nat) :
    DB × Except String Unit :=
  if isRecurringUpdate req ∧ ord.mainOrder then
    let keptOrders := db.orders.filter (keepOnRegen ord.orderNumber)
    match newFreqO ord req with
    | none => ({ db with orders := keptOrders }, .ok ())
    | some f =>
      let dates := generateRecurringDates (newStartN ord req) (newEndN ord req) f
      match generateUniqueOrderNumbers year (dates.length - 1)
          (keptOrders.map (fun o => o.orderNumber)) timestamp with
      | .error e => ({ db with orders := keptOrders }, .error e)
      | .ok nums =>
        ({ db with
            orders := keptOrders ++
              regenMembers ord req pItems f nums dates db.nextId
            nextId := db.nextId + dates.length }, .ok ())
  else if isRecurringUpdate req ∧ ¬ord.mainOrder ∧ ord.status ≠ OrderStatus.draft then
    match db.orders.find? (fun o =>
        ord.originalOrderNumber == some o.orderNumber && o.mainOrder) with
    | some _ =>
      (db, .error "Cannot update recurring order directly. Please update the main order instead.")
    | none => (db, .ok ())
  else (db, .ok ())

/-- The handler `updateOrder` (current revision, order.controller.ts
lines 413-692): find the order, re-validate an incoming customer, run
the merged mandatory-field validation for non-draft orders, process an
incoming items list, handle the recurring-series section, then apply
every present field to the target and save it. -/
def updateOrder (db : DB) (oid : Nat) (req : UpdateReq) (year timestamp : Nat) :
    DB × Except String Unit :=
  match db.orders.find? (fun o => o.id == oid) with
  | none => (db, .error "Order not found")
  | some ord =>
    match updCustomer db req with
    | .error e => (db, .error e)
    | .ok _ =>
      match (if ord.status ≠ OrderStatus.draft
          then missingMsgs (updChecks ord req) else []) with
      | m :: _ => (db, .error m)
      | [] =>
        match updItems db ord req with
        | .error e => (db, .error e)
        | .ok pItems =>
          match updRegen db ord req pItems year timestamp with
          | (dbr, .error e) => (dbr, .error e)
          | (dbr, .ok _) =>
            ({ dbr with orders := dbr.orders.map (fun o =>
                if o.id == ord.id then applyReq ord req pItems else o) },
              .ok ())

/-- Storage for the C8 create-side witness: one active customer. -/
def c8db : DB := ⟨[], [⟨7, .active⟩], [⟨1, true⟩], 10⟩

/-- A non-draft create request whose first missing field is `endDate`
(items, startDate present; endDate absent; frequency present; amounts
non-zero). -/
def c8creq : CreateReq :=
  ⟨some 7, some [⟨1⟩], some 0, none, some .weekly, 5, 6, .pending⟩

/-- Storage for the C8 update-side witness: a pending order without a
stored frequency. -/
def c8udb : DB :=
  ⟨[⟨1, "A-2024-0001", 7, [⟨1⟩], 0, 7, none, .pending, true, none, 5, 6⟩],
   [⟨7, .active⟩], [⟨1, true⟩], 10⟩

/-- An update request touching nothing: the merged validation fails on
the stored missing frequency. -/
def c8ureq : UpdateReq := ⟨none, none, none, none, none, none, none, none⟩

instance {e a : Type} [DecidableEq e] [DecidableEq a] :
    DecidableEq (Except e a) := fun x y =>
  match x, y with
  | .ok v, .ok w =>
    if h : v = w then isTrue (by rw [h])
    else isFalse (by intro hc; cases hc; exact h rfl)
  | .error v, .error w =>
    if h : v = w then isTrue (by rw [h])
    else isFalse (by intro hc; cases hc; exact h rfl)
  | .ok _, .error _ => isFalse (by intro hc; cases hc)
  | .error _, .ok _ => isFalse (by intro hc; cases hc)

/-!
## C5: the draft exemption from regeneration is absent in the current code

The comment over the regeneration branch promises "skip for draft
orders" (line 560) and the older revision enforced it (line 1870:
`... && order.status !== OrderStatus.DRAFT`); the current revision's
condition (line 565) is only `isRecurringUpdate && order.mainOrder`, so
a schedule update on a *draft* main order does delete its pending
members and create new ones.
-/

/-- Storage demonstrating the C5 code bug: a draft main order with one
pending series member. -/
def c5db : DB :=
  ⟨[⟨1, "A-2024-0001", 7, [], 0, 7, some .weekly, .draft, true, none, 0, 0⟩,
    ⟨2, "A-2024-0002", 7, [], 7, 7, some .weekly, .pending, false,
      some "A-2024-0001", 0, 0⟩],
   [⟨7, .active⟩], [], 10⟩

/-- A frequency-touching update request. -/
def c5req : UpdateReq :=
  ⟨none, none, none, none, some (some .weekly), none, none, none⟩

/-- Storage for the C10 consequence: a weekly series of two orders whose
main order's schedule is about to shrink to a single date. -/
def c10db : DB :=
  ⟨[⟨1, "A-2024-0001", 7, [], 0, 7, some .weekly, .pending, true, none, 5, 6⟩,
    ⟨2, "A-2024-0002", 7, [], 7, 7, some .weekly, .pending, false,
      some "A-2024-0001", 5, 6⟩],
   [⟨7, .active⟩], [], 10⟩

/-- An endDate update shrinking the schedule to the start date alone. -/
def c10req : UpdateReq :=
  ⟨none, none, none, some (some 0), none, none, none, none⟩

/-!
## C4: regeneration deletes only pending members; created set needs a
successful allocation

The `deleteMany` filter (lines 567-571) restricts deletion to `status:
PENDING` members of the series, so an `in_progress` member is never
deleted.  The fresh batch, however, is only persisted if
`generateUniqueOrderNumbers` returns; when it throws (count 0, or
collisions exhausting retries and fallback) the update errors out after
the deletion with nothing created.
-/

/-- Storage refuting the unconditional "fresh set is created" reading:
the stored numbers make the allocator's proposed batch collide
(lexicographic max `A-2024-9999` yields start 10000, already taken) and
the timestamp-seeded fallback (timestamp 10000) collide as well. -/
def c4db : DB :=
  ⟨[⟨1, "A-2024-0001", 7, [], 0, 7, some .weekly, .pending, true, none, 5, 6⟩,
    ⟨2, "A-2024-0002", 7, [], 7, 7, some .weekly, .pending, false,
      some "A-2024-0001", 5, 6⟩,
    ⟨5, "A-2024-9999", 7, [], 0, 0, none, .completed, true, none, 5, 6⟩,
    ⟨6, "A-2024-10000", 7, [], 0, 0, none, .completed, true, none, 5, 6⟩,
    ⟨7, "A-2024-10001", 7, [], 0, 0, none, .completed, true, none, 5, 6⟩],
   [⟨7, .active⟩], [], 10⟩

/-- An endDate update expanding the weekly schedule to three dates. -/
def c4req : UpdateReq :=
  ⟨none, none, none, some (some 14), none, none, none, none⟩

/-- Storage for the C4 amended witness: a weekly series with a pending
member (2) and an `in_progress` member (3). -/
def c4wdb : DB :=
  ⟨[⟨1, "A-2024-0001", 7, [], 0, 7, some .weekly, .pending, true, none, 5, 6⟩,
    ⟨2, "A-2024-0002", 7, [], 7, 7, some .weekly, .pending, false,
      some "A-2024-0001", 5, 6⟩,
    ⟨3, "A-2024-0003", 7, [], 0, 0, some .weekly, .in_progress, false,
      some "A-2024-0001", 5, 6⟩],
   [⟨7, .active⟩], [], 10⟩

/-- The main order of `c4wdb`. -/
def c4word : OrderDoc :=
  ⟨1, "A-2024-0001", 7, [], 0, 7, some .weekly, .pending, true, none, 5, 6⟩

/-! ## Theorems -/

theorem daysInYear_pos (y : Nat) : 0 < daysInYear y := by
  unfold daysInYear; split <;> omega

theorem monthLens_sum (y : Nat) : (monthLens y).sum = daysInYear y := by
  cases h : isLeap y <;> simp [monthLens, daysInYear, h]

theorem monthLens_length (y : Nat) : (monthLens y).length = 12 := by
  simp [monthLens]

theorem monthLens_pos (y : Nat) : ∀ x ∈ monthLens y, 0 < x := by
  cases h : isLeap y <;> simp [monthLens, h]

theorem findYear_spec :
    ∀ fuel y n, n < fuel →
      daysBeforeYear (findYear fuel y n).1 + (findYear fuel y n).2 =
        daysBeforeYear y + n ∧
      (findYear fuel y n).2 < daysInYear (findYear fuel y n).1 := by
  intro fuel
  induction fuel with
  | zero => intro y n h; omega
  | succ f ih =>
    intro y n h
    unfold findYear
    by_cases hn : n < daysInYear y
    · simp [hn]
    · have hy := daysInYear_pos y
      have h1 : n - daysInYear y < f := by omega
      have h2 := ih (y + 1) (n - daysInYear y) h1
      simp only [hn, if_false]
      constructor
      · have h3 : daysBeforeYear (y + 1) = daysBeforeYear y + daysInYear y := rfl
        omega
      · exact h2.2

theorem splitSeg_spec :
    ∀ (ls : List Nat) n, n < ls.sum →
      (ls.take (splitSeg ls n).1).sum + (splitSeg ls n).2 = n ∧
      (splitSeg ls n).1 < ls.length := by
  intro ls
  induction ls with
  | nil => intro n h; simp at h
  | cons l ls ih =>
    intro n h
    unfold splitSeg
    by_cases hn : n < l
    · simp [hn]
    · have h1 : n - l < ls.sum := by
        simp [List.sum_cons] at h; omega
      have h2 := ih (n - l) h1
      simp only [hn, if_false]
      constructor
      · simp only [List.take_succ_cons, List.sum_cons]
        omega
      · simp only [List.length_cons]
        omega

/-- Round-trip facts about `fromOrdinal`: reading the components back and
rebuilding the day recovers the ordinal, the month index is below 12, and
the day-of-month is at least 1. -/
theorem fromOrdinal_spec (n : Nat) :
    makeDay (fromOrdinal n).1 (fromOrdinal n).2.1 (fromOrdinal n).2.2 = n ∧
    (fromOrdinal n).2.1 < 12 ∧ 1 ≤ (fromOrdinal n).2.2 := by
  have hy := findYear_spec (n + 1) 0 n (by omega)
  have hm := splitSeg_spec (monthLens (findYear (n + 1) 0 n).1)
      (findYear (n + 1) 0 n).2 (by rw [monthLens_sum]; exact hy.2)
  rw [monthLens_length] at hm
  have h0 : daysBeforeYear 0 = 0 := rfl
  unfold fromOrdinal makeDay
  dsimp only
  refine ⟨by omega, by omega, by omega⟩

theorem jsAddDays_eq (n k : Nat) : jsAddDays n k = n + k := by
  have h := fromOrdinal_spec n
  unfold jsAddDays
  unfold makeDay at h ⊢
  omega

theorem makeDay_eq_firstOfMonth (y m d : Nat) (h : m < 12) :
    makeDay y m d = firstOfMonth (12 * y + m) + (d - 1) := by
  have h1 : (12 * y + m) / 12 = y := by omega
  have h2 : (12 * y + m) % 12 = m := by omega
  unfold makeDay firstOfMonth
  rw [h1, h2]

theorem sum_take_succ (l : List Nat) :
    ∀ m, m < l.length → (l.take (m + 1)).sum = (l.take m).sum + l.getD m 0 := by
  induction l with
  | nil => intro m hm; simp at hm
  | cons a l ih =>
    intro m hm
    cases m with
    | zero => simp
    | succ m =>
      simp only [List.take_succ_cons, List.sum_cons, List.getD_cons_succ]
      rw [ih m (by simpa using hm)]
      omega

theorem getD_pos (l : List Nat) (hpos : ∀ x ∈ l, 0 < x) :
    ∀ m, m < l.length → 0 < l.getD m 0 := by
  induction l with
  | nil => intro m hm; simp at hm
  | cons a l ih =>
    intro m hm
    cases m with
    | zero => exact hpos a (by simp)
    | succ m =>
      simp only [List.getD_cons_succ]
      exact ih (fun x hx => hpos x (by simp [hx])) m (by simpa using hm)

theorem sum_take_lt_sum (l : List Nat) (hpos : ∀ x ∈ l, 0 < x) :
    ∀ m, m < l.length → (l.take m).sum < l.sum := by
  induction l with
  | nil => intro m hm; simp at hm
  | cons a l ih =>
    intro m hm
    cases m with
    | zero =>
      simp only [List.take_zero, List.sum_nil, List.sum_cons]
      have := hpos a (by simp)
      omega
    | succ m =>
      simp only [List.take_succ_cons, List.sum_cons]
      have := ih (fun x hx => hpos x (by simp [hx])) m (by simpa using hm)
      omega

theorem take_sum_lt (y m : Nat) (h : m < 12) :
    ((monthLens y).take m).sum < daysInYear y := by
  rw [← monthLens_sum]
  exact sum_take_lt_sum (monthLens y) (monthLens_pos y) m
    (by rw [monthLens_length]; omega)

theorem firstOfMonth_lt_succ (M : Nat) : firstOfMonth M < firstOfMonth (M + 1) := by
  by_cases h : M % 12 < 11
  · have h1 : (M + 1) / 12 = M / 12 := by omega
    have h2 : (M + 1) % 12 = M % 12 + 1 := by omega
    unfold firstOfMonth
    rw [h1, h2]
    rw [sum_take_succ (monthLens (M / 12)) (M % 12)
      (by rw [monthLens_length]; omega)]
    have := getD_pos (monthLens (M / 12)) (monthLens_pos (M / 12)) (M % 12)
      (by rw [monthLens_length]; omega)
    omega
  · have h11 : M % 12 = 11 := by omega
    have h1 : (M + 1) / 12 = M / 12 + 1 := by omega
    have h2 : (M + 1) % 12 = 0 := by omega
    unfold firstOfMonth
    rw [h1, h2, h11]
    have h3 : daysBeforeYear (M / 12 + 1) =
        daysBeforeYear (M / 12) + daysInYear (M / 12) := rfl
    have h4 := take_sum_lt (M / 12) 11 (by omega)
    simp only [List.take_zero, List.sum_nil]
    omega

theorem firstOfMonth_lt (M M' : Nat) (h : M < M') :
    firstOfMonth M < firstOfMonth M' := by
  induction M' with
  | zero => omega
  | succ K ih =>
    rcases Nat.lt_succ_iff_lt_or_eq.mp h with h' | h'
    · exact Nat.lt_trans (ih h') (firstOfMonth_lt_succ K)
    · subst h'; exact firstOfMonth_lt_succ M

theorem jsAddMonths_gt (n k : Nat) (hk : 1 ≤ k) : n < jsAddMonths n k := by
  have h := fromOrdinal_spec n
  unfold jsAddMonths
  have h12 : (12 * (fromOrdinal n).1 + (fromOrdinal n).2.1 + k) % 12 < 12 := by omega
  rw [makeDay_eq_firstOfMonth _ _ _ h12]
  have hM : 12 * ((12 * (fromOrdinal n).1 + (fromOrdinal n).2.1 + k) / 12) +
      (12 * (fromOrdinal n).1 + (fromOrdinal n).2.1 + k) % 12 =
      12 * (fromOrdinal n).1 + (fromOrdinal n).2.1 + k := by omega
  rw [hM]
  have hn : n = firstOfMonth (12 * (fromOrdinal n).1 + (fromOrdinal n).2.1) +
      ((fromOrdinal n).2.2 - 1) := by
    rw [← makeDay_eq_firstOfMonth _ _ _ h.2.1]
    exact h.1.symm
  have := firstOfMonth_lt (12 * (fromOrdinal n).1 + (fromOrdinal n).2.1)
      (12 * (fromOrdinal n).1 + (fromOrdinal n).2.1 + k) (by omega)
  omega

theorem jsAddYears_gt (n k : Nat) (hk : 1 ≤ k) : n < jsAddYears n k := by
  have h := fromOrdinal_spec n
  unfold jsAddYears
  rw [makeDay_eq_firstOfMonth _ _ _ h.2.1]
  have hn : n = firstOfMonth (12 * (fromOrdinal n).1 + (fromOrdinal n).2.1) +
      ((fromOrdinal n).2.2 - 1) := by
    rw [← makeDay_eq_firstOfMonth _ _ _ h.2.1]
    exact h.1.symm
  have := firstOfMonth_lt (12 * (fromOrdinal n).1 + (fromOrdinal n).2.1)
      (12 * ((fromOrdinal n).1 + k) + (fromOrdinal n).2.1) (by omega)
  omega

theorem skipWeekend_not_weekend (n : Nat) :
    jsGetDay (skipWeekend n) ≠ 0 ∧ jsGetDay (skipWeekend n) ≠ 6 := by
  simp only [skipWeekend, skipWeekendF, jsGetDay]
  split_ifs <;> omega

theorem skipWeekend_ge (n : Nat) : n ≤ skipWeekend n := by
  simp only [skipWeekend, skipWeekendF, jsGetDay]
  split_ifs <;> omega

theorem stepDate_gt (f : Frequency) (n : Nat) (h : f ≠ .one_time) :
    n < stepDate f n := by
  cases f <;> simp only [stepDate] <;>
    first
      | (rw [jsAddDays_eq]; omega)
      | (exact Nat.lt_of_lt_of_le (by rw [jsAddDays_eq]; omega) (skipWeekend_ge _))
      | (exact jsAddMonths_gt n _ (by omega))
      | (exact jsAddYears_gt n 1 (by omega))
      | exact absurd rfl h

theorem genDatesF_mem (f : Frequency) (endD : Nat) :
    ∀ fuel cur x, x ∈ genDatesF f endD fuel cur → cur ≤ x ∧ x ≤ endD := by
  intro fuel
  induction fuel with
  | zero => intro cur x hx; simp [genDatesF] at hx
  | succ g ih =>
    intro cur x hx
    unfold genDatesF at hx
    by_cases hc : cur ≤ endD
    · simp only [hc, if_true, List.mem_cons] at hx
      rcases hx with rfl | hx
      · exact ⟨Nat.le_refl _, hc⟩
      · by_cases hf : f = .one_time
        · simp [hf] at hx
        · simp only [hf, if_false] at hx
          have h1 := ih (stepDate f cur) x hx
          have h2 := stepDate_gt f cur hf
          omega
    · simp [hc] at hx

theorem genDatesF_pairwise (f : Frequency) (endD : Nat) :
    ∀ fuel cur, (genDatesF f endD fuel cur).Pairwise (· ≤ ·) := by
  intro fuel
  induction fuel with
  | zero => intro cur; simp [genDatesF]
  | succ g ih =>
    intro cur
    unfold genDatesF
    by_cases hc : cur ≤ endD
    · simp only [hc, if_true]
      by_cases hf : f = .one_time
      · simp [hf]
      · simp only [hf, if_false]
        refine List.pairwise_cons.mpr ⟨?_, ih _⟩
        intro x hx
        have h1 := genDatesF_mem f endD g (stepDate f cur) x hx
        have h2 := stepDate_gt f cur hf
        omega
    · simp [hc]

/-- C2.  For every start ≤ end and frequency, `generateRecurringDates`
returns a non-empty list whose first element is the start date, which is
non-decreasing, and all of whose elements lie in the inclusive interval
`[start, end]`. -/
theorem recurringDates_spec (s e : Nat) (f : Frequency) (h : s ≤ e) :
    generateRecurringDates s e f ≠ [] ∧
    (generateRecurringDates s e f).head? = some s ∧
    (generateRecurringDates s e f).Pairwise (· ≤ ·) ∧
    ∀ x ∈ generateRecurringDates s e f, s ≤ x ∧ x ≤ e := by
  have hfuel : ∃ g, e + 1 - s = g + 1 := ⟨e - s, by omega⟩
  obtain ⟨g, hg⟩ := hfuel
  unfold generateRecurringDates
  rw [hg]
  refine ⟨?_, ?_, genDatesF_pairwise f e (g + 1) s, ?_⟩
  · unfold genDatesF
    simp [h]
  · unfold genDatesF
    simp [h]
  · intro x hx
    exact genDatesF_mem f e (g + 1) s x hx

/-- Witness for C2 at concrete input (start 0, end 2, daily):
0, 1, 2 are emitted, sorted, within range. -/
theorem recurringDates_spec_witness :
    (0 : Nat) ≤ 2 ∧
    (generateRecurringDates 0 2 .daily ≠ [] ∧
     (generateRecurringDates 0 2 .daily).head? = some 0 ∧
     (generateRecurringDates 0 2 .daily).Pairwise (· ≤ ·) ∧
     ∀ x ∈ generateRecurringDates 0 2 .daily, 0 ≤ x ∧ x ≤ 2) :=
  ⟨by decide, recurringDates_spec 0 2 .daily (by decide)⟩

/-- C6 counterexample.  The generator pushes the start date before the
weekend skip runs, so a start date falling on a Saturday is emitted:
ordinal 0 (0000-01-01) is a Saturday (`getDay = 6`), `start = end = 0`
satisfies start ≤ end, and the `weekdays` output contains it. -/
theorem weekdays_counterexample :
    (0 : Nat) ≤ 0 ∧
    generateRecurringDates 0 0 .weekdays = [0] ∧
    jsGetDay 0 = 6 := by
  refine ⟨by decide, ?_, by decide⟩
  rfl

theorem genDatesF_weekdays_tail (endD : Nat) :
    ∀ fuel cur x, x ∈ genDatesF .weekdays endD fuel cur →
      x = cur ∨ (jsGetDay x ≠ 0 ∧ jsGetDay x ≠ 6) := by
  intro fuel
  induction fuel with
  | zero => intro cur x hx; simp [genDatesF] at hx
  | succ g ih =>
    intro cur x hx
    unfold genDatesF at hx
    by_cases hc : cur ≤ endD
    · simp only [hc, if_true, List.mem_cons] at hx
      rcases hx with rfl | hx
      · exact Or.inl rfl
      · simp only [reduceCtorEq, if_false] at hx
        rcases ih (stepDate .weekdays cur) x hx with rfl | hw
        · exact Or.inr (skipWeekend_not_weekend _)
        · exact Or.inr hw
    · simp [hc] at hx

/-- C6 amended.  With frequency `weekdays`, no emitted date other than
the first element (the start date itself, which is always emitted) falls
on a Saturday or a Sunday. -/
theorem weekdays_no_weekend_after_head (s e : Nat) :
    ∀ x ∈ (generateRecurringDates s e .weekdays).tail,
      jsGetDay x ≠ 0 ∧ jsGetDay x ≠ 6 := by
  intro x hx
  unfold generateRecurringDates at hx
  rcases hfe : e + 1 - s with _ | g
  · rw [hfe] at hx; simp [genDatesF] at hx
  · rw [hfe] at hx
    unfold genDatesF at hx
    by_cases hc : s ≤ e
    · simp only [hc, if_true, reduceCtorEq, if_false, List.tail_cons] at hx
      rcases genDatesF_weekdays_tail e g (stepDate .weekdays s) x hx with rfl | hw
      · exact skipWeekend_not_weekend _
      · exact hw
    · simp [hc] at hx

/-- Witness for the amended C6: starting on Saturday ordinal 0 with end
ordinal 3, the element 2 (a Monday) of the tail is no weekend day. -/
theorem weekdays_no_weekend_after_head_witness :
    (2 : Nat) ∈ (generateRecurringDates 0 3 .weekdays).tail ∧
    (jsGetDay 2 ≠ 0 ∧ jsGetDay 2 ≠ 6) :=
  ⟨by decide, weekdays_no_weekend_after_head 0 3 2 (by decide)⟩

/-- C7 counterexample.  The loop guard `currentDate <= endDate` is
checked before the first push, so with start 1 > end 0 the `one_time`
generator returns the empty list, not a singleton. -/
theorem one_time_counterexample :
    generateRecurringDates 1 0 .one_time = [] ∧
    generateRecurringDates 1 0 .one_time ≠ [1] := by
  refine ⟨rfl, by decide⟩

/-- C7 amended.  Whenever start ≤ end, the `one_time` generator returns
exactly `[start]`, however distant the end date is; when start > end it
returns `[]`. -/
theorem one_time_singleton (s e : Nat) (h : s ≤ e) :
    generateRecurringDates s e .one_time = [s] := by
  have hfuel : ∃ g, e + 1 - s = g + 1 := ⟨e - s, by omega⟩
  obtain ⟨g, hg⟩ := hfuel
  unfold generateRecurringDates
  rw [hg]
  unfold genDatesF
  simp [h]

/-- Witness for the amended C7 at a concrete input: the end date (100)
lies far beyond start (3) and is ignored. -/
theorem one_time_singleton_witness :
    (3 : Nat) ≤ 100 ∧ generateRecurringDates 3 100 .one_time = [3] :=
  ⟨by decide, one_time_singleton 3 100 (by decide)⟩

theorem digitChar_toNat : ∀ d, d < 10 → (Nat.digitChar d).toNat = 48 + d := by
  decide

theorem natDigitsF_lt10 :
    ∀ fuel n d, d ∈ natDigitsF fuel n → d < 10 := by
  intro fuel
  induction fuel with
  | zero => intro n d hd; simp [natDigitsF] at hd
  | succ f ih =>
    intro n d hd
    unfold natDigitsF at hd
    by_cases hn : n = 0
    · simp [hn] at hd
    · simp only [hn, if_false, List.mem_cons] at hd
      rcases hd with rfl | hd
      · exact Nat.mod_lt _ (by omega)
      · exact ih _ _ hd

theorem natDigitsF_val :
    ∀ fuel n, n < fuel → digitsVal (natDigitsF fuel n) = n := by
  intro fuel
  induction fuel with
  | zero => intro n h; omega
  | succ f ih =>
    intro n h
    unfold natDigitsF
    by_cases hn : n = 0
    · simp [hn, digitsVal]
    · simp only [hn, if_false, digitsVal]
      have hd : n / 10 < f := by omega
      rw [ih (n / 10) hd]
      omega

theorem charsToNat_digits :
    ∀ (ds : List Nat), (∀ d ∈ ds, d < 10) →
      charsToNat (ds.reverse.map Nat.digitChar) = digitsVal ds := by
  intro ds
  induction ds with
  | nil => intro; rfl
  | cons d ds ih =>
    intro hds
    have h1 : (d :: ds).reverse.map Nat.digitChar =
        ds.reverse.map Nat.digitChar ++ [Nat.digitChar d] := by
      simp
    rw [h1]
    unfold charsToNat
    rw [List.foldl_append]
    have h2 := ih (fun x hx => hds x (by simp [hx]))
    unfold charsToNat at h2
    rw [h2]
    simp only [List.foldl_cons, List.foldl_nil, digitsVal]
    rw [digitChar_toNat d (hds d (by simp))]
    omega

theorem charsToNat_natChars (n : Nat) : charsToNat (natChars n) = n := by
  unfold natChars
  by_cases hn : n = 0
  · simp [hn]; rfl
  · simp only [hn, if_false]
    rw [charsToNat_digits _ (fun d hd => natDigitsF_lt10 _ _ _ hd)]
    exact natDigitsF_val (n + 1) n (by omega)

theorem charsToNat_replicate_zero (k : Nat) (l : List Char) :
    charsToNat (List.replicate k '0' ++ l) = charsToNat l := by
  induction k with
  | zero => rfl
  | succ k ih =>
    have h1 : List.replicate (k + 1) '0' ++ l = '0' :: (List.replicate k '0' ++ l) := by
      simp [List.replicate_succ]
    rw [h1]
    unfold charsToNat at ih ⊢
    simpa using ih

theorem charsToNat_padStart4_natChars (n : Nat) :
    charsToNat (padStart4 (natChars n)) = n := by
  unfold padStart4
  rw [charsToNat_replicate_zero, charsToNat_natChars]

theorem orderNumberStr_inj (year : Nat) :
    Function.Injective (orderNumberStr year) := by
  intro a b hab
  have hdata : yearPrefix year ++ padStart4 (natChars a) =
      yearPrefix year ++ padStart4 (natChars b) := by
    have := congrArg String.data hab
    simpa [orderNumberStr] using this
  have hpad := List.append_cancel_left hdata
  have := congrArg charsToNat hpad
  rwa [charsToNat_padStart4_natChars, charsToNat_padStart4_natChars] at this

theorem batchNumbers_props (year start count : Nat) :
    (batchNumbers year start count).length = count ∧
    (batchNumbers year start count).Nodup ∧
    ∀ s ∈ batchNumbers year start count, yearPrefix year <+: s.data := by
  refine ⟨by simp [batchNumbers], ?_, ?_⟩
  · refine List.Nodup.map ?_ (List.nodup_range count)
    intro a b hab
    have := orderNumberStr_inj year hab
    omega
  · intro s hs
    simp only [batchNumbers, List.mem_map] at hs
    obtain ⟨i, _, rfl⟩ := hs
    exact ⟨padStart4 (natChars (start + i)), rfl⟩

theorem allocLoop_ok (year count : Nat) (storage : List String) :
    ∀ a l, allocLoop year count storage a = some l →
      l = batchNumbers year (startSeq year storage) count ∧
      (l.all (fun s => !storage.contains s)) = true ∧ 0 < count := by
  intro a
  induction a with
  | zero => intro l h; simp [allocLoop] at h
  | succ a ih =>
    intro l h
    unfold allocLoop at h
    by_cases hc : 0 < count
    · simp only [hc, if_true] at h
      by_cases hb : (batchNumbers year (startSeq year storage) count).all
          (fun s => !storage.contains s) = true
      · rw [if_pos hb] at h
        cases h
        exact ⟨rfl, hb, hc⟩
      · rw [if_neg hb] at h
        exact ih l h
    · simp [hc] at h

/-- C1.  Whenever a single call to `generateUniqueOrderNumbers` returns
(rather than throwing), the returned list has exactly `count` pairwise
distinct elements, each starting with `` `A-<year>-` ``, and none of them
is present in storage at the call's existence check; in particular no
partial batch is ever returned, and the fallback batch is subject to the
same existence check (both return paths carry it). -/
theorem generateUniqueOrderNumbers_spec (year count : Nat)
    (storage : List String) (timestamp : Nat) (l : List String)
    (h : generateUniqueOrderNumbers year count storage timestamp = .ok l) :
    l.length = count ∧ l.Nodup ∧
    ∀ s ∈ l, yearPrefix year <+: s.data ∧ s ∉ storage := by
  unfold generateUniqueOrderNumbers at h
  have hfb : ∀ (_ : l = fallbackNumbers year timestamp count)
      (_ : (fallbackNumbers year timestamp count).all
        (fun s => !storage.contains s) = true),
      l.length = count ∧ l.Nodup ∧
      ∀ s ∈ l, yearPrefix year <+: s.data ∧ s ∉ storage := by
    intro hl hall
    subst hl
    refine ⟨by simp [fallbackNumbers], ?_, ?_⟩
    · refine List.Nodup.map ?_ (List.nodup_range count)
      intro a b hab
      have := orderNumberStr_inj year hab
      omega
    · intro s hs
      refine ⟨?_, ?_⟩
      · simp only [fallbackNumbers, List.mem_map] at hs
        obtain ⟨i, _, rfl⟩ := hs
        exact ⟨padStart4 (natChars (timestamp + i)), rfl⟩
      · have := List.all_eq_true.mp hall s hs
        simp only [Bool.not_eq_true'] at this
        intro hmem
        simp only [List.contains, List.elem_eq_mem, decide_eq_false_iff_not] at this
        exact this hmem
  rcases hloop : allocLoop year count storage 200 with _ | batch
  · rw [hloop] at h
    by_cases hc : 0 < count
    · simp only [hc, if_true] at h
      by_cases hb : (fallbackNumbers year timestamp count).all
          (fun s => !storage.contains s) = true
      · rw [if_pos hb] at h
        cases h
        exact hfb rfl hb
      · rw [if_neg hb] at h
        cases h
    · simp [hc] at h
  · rw [hloop] at h
    cases h
    obtain ⟨hbatch, hall, _⟩ := allocLoop_ok year count storage 200 _ hloop
    subst hbatch
    obtain ⟨hlen, hnodup, hpre⟩ := batchNumbers_props year (startSeq year storage) count
    refine ⟨hlen, hnodup, ?_⟩
    intro s hs
    refine ⟨hpre s hs, ?_⟩
    have := List.all_eq_true.mp hall s hs
    simp only [Bool.not_eq_true'] at this
    intro hmem
    simp only [List.contains, List.elem_eq_mem, decide_eq_false_iff_not] at this
    exact this hmem

/-- Witness for C1: with empty storage and year 2024, requesting two
numbers yields the batch starting at sequence 1, with all claimed
properties. -/
theorem generateUniqueOrderNumbers_spec_witness :
    generateUniqueOrderNumbers 2024 2 [] 0 = .ok (batchNumbers 2024 1 2) ∧
    ((batchNumbers 2024 1 2).length = 2 ∧ (batchNumbers 2024 1 2).Nodup ∧
     ∀ s ∈ batchNumbers 2024 1 2, yearPrefix 2024 <+: s.data ∧ s ∉ ([] : List String)) :=
  ⟨by rfl, generateUniqueOrderNumbers_spec 2024 2 [] 0 _ (by rfl)⟩

theorem seriesKey_of_orig {o : OrderDoc} {x : String}
    (h : o.originalOrderNumber = some x) : seriesKey o = x := by
  unfold seriesKey; rw [h]; rfl

theorem seriesKey_of_none {o : OrderDoc}
    (h : o.originalOrderNumber = none) : seriesKey o = o.orderNumber := by
  unfold seriesKey; rw [h]; rfl

theorem id_inj_of_inv (db : DB) (hinv : DBInv db) :
    ∀ a ∈ db.orders, ∀ b ∈ db.orders, a.id = b.id → a = b := by
  intro a ha b hb hab
  exact List.inj_on_of_nodup_map hinv.1 ha hb hab

theorem num_inj_of_inv (db : DB) (hinv : DBInv db) :
    ∀ a ∈ db.orders, ∀ b ∈ db.orders, a.orderNumber = b.orderNumber → a = b := by
  intro a ha b hb hab
  exact List.inj_on_of_nodup_map hinv.2.1 ha hb hab

/-- An order is not a main order whenever it carries a back-reference
(under the invariant). -/
theorem not_main_of_orig (db : DB) (hinv : DBInv db) {o : OrderDoc}
    (ho : o ∈ db.orders) {x : String} (h : o.originalOrderNumber = some x) :
    o.mainOrder = false := by
  by_contra hcon
  have := hinv.2.2.1 o ho (by simpa using hcon)
  rw [h] at this
  cases this

/-- Reduction of the deleted-ids test to series membership. -/
theorem deleteSet_ids (db : DB) (hinv : DBInv db) (target : OrderDoc)
    (htgt : target ∈ db.orders) :
    ∀ o ∈ db.orders,
      (o.id ∈ (deleteSet db target).map (fun d => d.id) ↔
        seriesKey o = seriesKey target) := by
  intro o ho
  unfold deleteSet
  cases hmain : target.mainOrder with
  | true =>
    have htkey : seriesKey target = target.orderNumber :=
      seriesKey_of_none (hinv.2.2.1 target htgt hmain)
    simp only [if_true, List.map_cons, List.mem_cons, List.mem_map]
    constructor
    · rintro (hid | ⟨d, hd, hdo⟩)
      · rw [id_inj_of_inv db hinv o ho target htgt hid]
      · obtain ⟨hdmem, hdp⟩ := List.mem_filter.mp hd
        cases id_inj_of_inv db hinv o ho d hdmem hdo.symm
        simp only [Bool.and_eq_true, beq_iff_eq, Bool.not_eq_true'] at hdp
        rw [seriesKey_of_orig hdp.1, htkey]
    · intro hkey
      rcases horig : o.originalOrderNumber with _ | x
      · rw [seriesKey_of_none horig, htkey] at hkey
        rw [num_inj_of_inv db hinv o ho target htgt hkey]
        exact Or.inl rfl
      · rw [seriesKey_of_orig horig, htkey] at hkey
        refine Or.inr ⟨o, List.mem_filter.mpr ⟨ho, ?_⟩, rfl⟩
        simp only [Bool.and_eq_true, beq_iff_eq, Bool.not_eq_true']
        exact ⟨by rw [horig, hkey], not_main_of_orig db hinv ho horig⟩
  | false =>
    rcases horig : target.originalOrderNumber with _ | x
    · -- standalone non-main order: only the target is deleted
      have htkey : seriesKey target = target.orderNumber := seriesKey_of_none horig
      simp only [Bool.false_eq_true, if_false, List.map_cons, List.map_nil,
        List.mem_singleton]
      constructor
      · intro hid
        rw [id_inj_of_inv db hinv o ho target htgt hid]
      · intro hkey
        rcases hoorig : o.originalOrderNumber with _ | w
        · rw [seriesKey_of_none hoorig, htkey] at hkey
          rw [num_inj_of_inv db hinv o ho target htgt hkey]
        · rw [seriesKey_of_orig hoorig, htkey] at hkey
          obtain ⟨m, hm, hmmain, hmnum⟩ :=
            hinv.2.2.2 o ho (not_main_of_orig db hinv ho hoorig)
              (by rw [hoorig]; simp)
          rw [hoorig] at hmnum
          have hmnum' : m.orderNumber = w := Option.some.inj hmnum
          have hmt : m = target :=
            num_inj_of_inv db hinv m hm target htgt (by rw [hmnum', hkey])
          rw [hmt, hmain] at hmmain
          cases hmmain
    · -- series member: the main order exists by the invariant
      have htkey : seriesKey target = x := seriesKey_of_orig horig
      obtain ⟨m, hm, hmmain, hmnum0⟩ :=
        hinv.2.2.2 target htgt hmain (by rw [horig]; simp)
      rw [horig] at hmnum0
      have hmnum : m.orderNumber = x := Option.some.inj hmnum0
      have hsome : (db.orders.find? (fun o => o.orderNumber == x && o.mainOrder)).isSome := by
        rw [List.find?_isSome]
        exact ⟨m, hm, by simp [hmnum, hmmain]⟩
      rcases hfind2 : db.orders.find? (fun o => o.orderNumber == x && o.mainOrder)
          with _ | mo
      · rw [hfind2] at hsome; cases hsome
      · have hmop := List.find?_some hfind2
        have hmomem := List.mem_of_find?_eq_some hfind2
        simp only [Bool.and_eq_true, beq_iff_eq] at hmop
        have hmokey : seriesKey mo = x := by
          rw [seriesKey_of_none (hinv.2.2.1 mo hmomem hmop.2)]
          exact hmop.1
        simp only [Bool.false_eq_true, if_false]
        rw [hfind2]
        simp only [List.map_cons, List.mem_cons, List.mem_map]
        constructor
        · rintro (hid | ⟨d, hd, hdo⟩)
          · rw [id_inj_of_inv db hinv o ho mo hmomem hid, hmokey, htkey]
          · obtain ⟨hdmem, hdp⟩ := List.mem_filter.mp hd
            cases id_inj_of_inv db hinv o ho d hdmem hdo.symm
            simp only [Bool.and_eq_true, beq_iff_eq, Bool.not_eq_true'] at hdp
            rw [seriesKey_of_orig hdp.1, htkey]
        · intro hkey
          rw [htkey] at hkey
          rcases hoorig : o.originalOrderNumber with _ | w
          · rw [seriesKey_of_none hoorig] at hkey
            refine Or.inl ?_
            rw [num_inj_of_inv db hinv o ho mo hmomem (by rw [hkey, hmop.1])]
          · rw [seriesKey_of_orig hoorig] at hkey
            refine Or.inr ⟨o, List.mem_filter.mpr ⟨ho, ?_⟩, rfl⟩
            simp only [Bool.and_eq_true, beq_iff_eq, Bool.not_eq_true']
            exact ⟨by rw [hoorig, hkey], not_main_of_orig db hinv ho hoorig⟩

/-- C3.  On a well-formed storage, `deleteOrder` on an existing order
succeeds exactly when the target's status is `pending` or `draft` (and
responds 400 changing nothing otherwise); on success the orders removed
from storage are exactly the target's series — main order and all
members, never a proper subset. -/
theorem deleteOrder_spec (db : DB) (oid : Nat) (target : OrderDoc)
    (hfind : db.orders.find? (fun o => o.id == oid) = some target)
    (hinv : DBInv db) :
    ((deleteOrder db oid).2 = .ok () ↔
      (target.status = .pending ∨ target.status = .draft)) ∧
    (¬(target.status = .pending ∨ target.status = .draft) →
      (deleteOrder db oid).1 = db) ∧
    ((target.status = .pending ∨ target.status = .draft) →
      ∀ o ∈ db.orders,
        (o ∈ (deleteOrder db oid).1.orders ↔ seriesKey o ≠ seriesKey target)) := by
  have htgt : target ∈ db.orders := List.mem_of_find?_eq_some hfind
  unfold deleteOrder
  rw [hfind]
  dsimp only
  by_cases hst : target.status ≠ OrderStatus.pending ∧ target.status ≠ OrderStatus.draft
  · rw [if_pos hst]
    refine ⟨?_, fun _ => rfl, fun hok => absurd hok (by tauto)⟩
    constructor
    · intro h
      cases h
    · intro h
      exact absurd h (by tauto)
  · rw [if_neg hst]
    have hok : target.status = .pending ∨ target.status = .draft := by tauto
    refine ⟨by simp [hok], fun hcon => absurd hok hcon, fun _ => ?_⟩
    intro o ho
    have hids := deleteSet_ids db hinv target htgt o ho
    simp only [List.mem_filter, Bool.not_eq_true']
    constructor
    · rintro ⟨_, hcont⟩
      intro hkey
      have hmem := hids.mpr hkey
      simp only [List.contains, List.elem_eq_mem, decide_eq_false_iff_not] at hcont
      exact hcont hmem
    · intro hkey
      refine ⟨ho, ?_⟩
      simp only [List.contains, List.elem_eq_mem, decide_eq_false_iff_not]
      intro hmem
      exact hkey (hids.mp hmem)

/-- Witness for C3: deleting member 2 of the 3-order series removes
exactly orders 1, 2, 3 and leaves order 4. -/
theorem deleteOrder_spec_witness :
    ((deleteOrder c3db 2).2 = .ok () ↔
      (c3target.status = .pending ∨ c3target.status = .draft)) ∧
    (¬(c3target.status = .pending ∨ c3target.status = .draft) →
      (deleteOrder c3db 2).1 = c3db) ∧
    ((c3target.status = .pending ∨ c3target.status = .draft) →
      ∀ o ∈ c3db.orders,
        (o ∈ (deleteOrder c3db 2).1.orders ↔ seriesKey o ≠ seriesKey c3target)) :=
  deleteOrder_spec c3db 2 c3target (by decide) (by unfold DBInv; decide)

/-- C9 counterexample.  Deleting the sole (active) catalog item leaves an
empty store: the row does not remain with `isActive = false` — it is
removed outright. -/
theorem deleteItem_counterexample :
    deleteItem [⟨1, true⟩] 1 = ([], .ok ()) ∧
    ∀ it ∈ (deleteItem [⟨1, true⟩] 1).1, it.id ≠ 1 := by
  constructor
  · rfl
  · intro it hit
    simp [deleteItem] at hit

/-- C9 amended.  Deleting an existing catalog item through the items
DELETE endpoint is a hard delete: the operation succeeds, the targeted
row is removed from storage, and every other row survives unmodified (in
particular no `isActive` flag is touched). -/
theorem deleteItem_spec (catalog : List CatItem) (iid : Nat) (it : CatItem)
    (hfind : catalog.find? (fun x => x.id == iid) = some it) :
    (deleteItem catalog iid).2 = .ok () ∧
    (∀ x ∈ (deleteItem catalog iid).1, x.id ≠ iid) ∧
    (∀ x ∈ catalog, x.id ≠ iid → x ∈ (deleteItem catalog iid).1) ∧
    (∀ x ∈ (deleteItem catalog iid).1, x ∈ catalog) := by
  unfold deleteItem
  rw [hfind]
  refine ⟨rfl, ?_, ?_, ?_⟩
  · intro x hx
    have := (List.mem_filter.mp hx).2
    simpa using this
  · intro x hx hne
    exact List.mem_filter.mpr ⟨hx, by simpa using hne⟩
  · intro x hx
    exact (List.mem_filter.mp hx).1

/-- Witness for the amended C9: deleting item 1 from a two-item catalog
keeps item 2 untouched and drops item 1. -/
theorem deleteItem_spec_witness :
    (deleteItem [⟨1, true⟩, ⟨2, false⟩] 1).2 = .ok () ∧
    (∀ x ∈ (deleteItem [⟨1, true⟩, ⟨2, false⟩] 1).1, x.id ≠ 1) ∧
    (∀ x ∈ [(⟨1, true⟩ : CatItem), ⟨2, false⟩], x.id ≠ 1 →
      x ∈ (deleteItem [⟨1, true⟩, ⟨2, false⟩] 1).1) ∧
    (∀ x ∈ (deleteItem [⟨1, true⟩, ⟨2, false⟩] 1).1,
      x ∈ [(⟨1, true⟩ : CatItem), ⟨2, false⟩]) :=
  deleteItem_spec [⟨1, true⟩, ⟨2, false⟩] 1 ⟨1, true⟩ (by decide)

theorem missingMsgs_head (checks : List (Bool × String)) :
    ∀ m, checks.find? (fun p => !p.1) = some m →
      ∃ rest, missingMsgs checks = m.2 :: rest := by
  induction checks with
  | nil => intro m h; simp at h
  | cons c cs ih =>
    intro m h
    rw [List.find?_cons] at h
    cases hc : (!c.1) with
    | true =>
      rw [hc] at h
      cases h
      refine ⟨missingMsgs cs, ?_⟩
      simp [missingMsgs, List.filter_cons, hc]
    | false =>
      rw [hc] at h
      obtain ⟨rest, hrest⟩ := ih m h
      refine ⟨rest, ?_⟩
      unfold missingMsgs at hrest ⊢
      simp only [List.filter_cons, hc, if_false]
      exact hrest

/-- C8.  For a non-draft create or update on which the earlier checks
(customer present, found and active; known order; valid incoming
customer) pass, a failing mandatory-field validation rejects the
operation with the message of the *first* missing field in the fixed
check order items → startDate → endDate → frequency → totalNetAmount →
totalGrossAmount (the order of `createChecks`/`updChecks`, which mirror
the source's `fieldValidations` arrays; `find?` returns the first failed
check). -/
theorem mandatory_first_missing :
    (∀ (db : DB) (req : CreateReq) (year today ts cid : Nat)
        (cust : CustomerDoc) (m : Bool × String),
      req.customer = some cid →
      db.customers.find? (fun c => c.id == cid) = some cust →
      cust.status = CustomerStatus.active →
      req.status ≠ OrderStatus.draft →
      (createChecks req).find? (fun p => !p.1) = some m →
      (createOrder db req year today ts).2 = .error m.2) ∧
    (∀ (db : DB) (oid : Nat) (req : UpdateReq) (year ts : Nat)
        (ord : OrderDoc) (m : Bool × String),
      db.orders.find? (fun o => o.id == oid) = some ord →
      updCustomer db req = .ok () →
      ord.status ≠ OrderStatus.draft →
      (updChecks ord req).find? (fun p => !p.1) = some m →
      (updateOrder db oid req year ts).2 = .error m.2) := by
  constructor
  · intro db req year today ts cid cust m hcid hcust hact hstat hfirst
    obtain ⟨rest, hrest⟩ := missingMsgs_head (createChecks req) m hfirst
    unfold createOrder
    rw [hcid]
    dsimp only
    rw [hcust]
    dsimp only
    rw [if_neg (by simp [hact]), if_neg hstat, hrest]
  · intro db oid req year ts ord m hfind hcust hstat hfirst
    obtain ⟨rest, hrest⟩ := missingMsgs_head (updChecks ord req) m hfirst
    unfold updateOrder
    rw [hfind]
    dsimp only
    rw [hcust]
    dsimp only
    rw [if_pos hstat, hrest]

/-- Witness for C8: the create side reports the missing end date (the
first missing field), the update side reports the missing merged
frequency. -/
theorem mandatory_first_missing_witness :
    (createOrder c8db c8creq 2024 0 0).2 =
      .error "End date is required for non-draft orders" ∧
    (updateOrder c8udb 1 c8ureq 2024 0).2 =
      .error "Frequency is required for non-draft orders" :=
  ⟨mandatory_first_missing.1 c8db c8creq 2024 0 0 7 ⟨7, .active⟩
      (false, "End date is required for non-draft orders")
      (by rfl) (by rfl) (by rfl) (by decide) (by rfl),
   mandatory_first_missing.2 c8udb 1 c8ureq 2024 0
      ⟨1, "A-2024-0001", 7, [⟨1⟩], 0, 7, none, .pending, true, none, 5, 6⟩
      (false, "Frequency is required for non-draft orders")
      (by rfl) (by rfl) (by decide) (by rfl)⟩

/-- C5 (code bug).  Updating the schedule of the *draft* main order 1
succeeds and regenerates its series: the existing pending member
(order 2) is deleted from storage and a fresh pending member is created
— regeneration is **not** skipped for draft orders, contradicting the
source's own comment, the older revision's condition and the spec. -/
theorem draft_regen_not_skipped :
    (updateOrder c5db 1 c5req 2024 0).2 = .ok () ∧
    (∃ o ∈ c5db.orders, o.id = 1 ∧ o.status = OrderStatus.draft ∧
      o.mainOrder = true) ∧
    (∃ o ∈ c5db.orders, o.id = 2 ∧ o.status = OrderStatus.pending ∧
      o.originalOrderNumber = some "A-2024-0001") ∧
    (∀ o ∈ (updateOrder c5db 1 c5req 2024 0).1.orders, o.id ≠ 2) ∧
    (∃ o ∈ (updateOrder c5db 1 c5req 2024 0).1.orders,
      o.mainOrder = false ∧ o.status = OrderStatus.pending ∧
      o.originalOrderNumber = some "A-2024-0001" ∧ o.id ≠ 2) := by
  refine ⟨rfl, ?_, ?_, ?_, ?_⟩ <;> decide

theorem allocLoop_count_zero (year : Nat) (storage : List String) :
    ∀ a, allocLoop year 0 storage a = none := by
  intro a
  cases a with
  | zero => rfl
  | succ n => simp [allocLoop]

/-- C10.  Requesting zero order numbers never returns the empty batch:
the retry loop's guard (`orderNumbers.length < count`) and the fallback
guard are both false for `count = 0`, so the call always throws.
Consequently a schedule update on a main order whose new range expands
to exactly one delivery date (so `deliveryDates.length - 1 = 0` numbers
are requested) fails at allocation — after the pending series members
were already deleted, and before the main order's own dates are saved. -/
theorem alloc_zero_throws :
    (∀ (year : Nat) (storage : List String) (ts : Nat),
      generateUniqueOrderNumbers year 0 storage ts =
        .error "Unable to generate unique order numbers after multiple attempts") ∧
    ((generateRecurringDates 0 0 .weekly).length = 1 ∧
     (updateOrder c10db 1 c10req 2024 0).2 =
       .error "Unable to generate unique order numbers after multiple attempts" ∧
     (∀ o ∈ (updateOrder c10db 1 c10req 2024 0).1.orders, o.id ≠ 2) ∧
     (∃ o ∈ (updateOrder c10db 1 c10req 2024 0).1.orders,
       o.id = 1 ∧ o.endDate = 7)) := by
  constructor
  · intro year storage ts
    unfold generateUniqueOrderNumbers
    rw [allocLoop_count_zero year storage 200]
    simp
  · refine ⟨rfl, rfl, ?_, ?_⟩ <;> decide

set_option maxRecDepth 20000 in
/-- C4 counterexample.  A schedule update touching `endDate` on main
order 1 (three delivery dates, so two fresh members would be consistent
with the new parameters) deletes the pending member and then fails at
number allocation: the response is the allocator error, no series member
exists afterwards, and the main order still carries the old end date —
no fresh set of pending members consistent with the new parameters was
created. -/
theorem regen_creation_counterexample :
    isRecurringUpdate c4req = true ∧
    (generateRecurringDates 0 14 .weekly).length = 3 ∧
    (updateOrder c4db 1 c4req 2024 10000).2 =
      .error "Unable to generate unique order numbers after multiple attempts" ∧
    ((updateOrder c4db 1 c4req 2024 10000).1.orders.filter (fun o =>
      o.originalOrderNumber == some "A-2024-0001" && !o.mainOrder)) = [] ∧
    (∃ o ∈ (updateOrder c4db 1 c4req 2024 10000).1.orders,
      o.id = 1 ∧ o.endDate = 7) := by
  refine ⟨rfl, rfl, ?_, ?_, ?_⟩ <;> decide

theorem range_map_getD (l : List Nat) :
    (List.range l.length).map (fun i => l.getD i 0) = l := by
  induction l with
  | nil => rfl
  | cons a l ih =>
    rw [List.length_cons, List.range_succ_eq_map, List.map_cons,
      List.map_map]
    have h1 : ((fun i => (a :: l).getD i 0) ∘ Nat.succ) =
        (fun i => l.getD i 0) := by
      funext i
      simp
    rw [h1, ih]
    rfl

theorem range_drop_map_getD (l : List Nat) :
    ((List.range l.length).drop 1).map (fun i => l.getD i 0) = l.drop 1 := by
  cases l with
  | nil => rfl
  | cons a l =>
    rw [List.length_cons, List.range_succ_eq_map, List.drop_succ_cons,
      List.drop_zero, List.map_map]
    have h1 : ((fun i => (a :: l).getD i 0) ∘ Nat.succ) =
        (fun i => l.getD i 0) := by
      funext i
      simp
    rw [h1]
    exact range_map_getD l

theorem map_eq_self_of {α : Type} (l : List α) (f : α → α)
    (h : ∀ x ∈ l, f x = x) : l.map f = l := by
  induction l with
  | nil => rfl
  | cons a l ih =>
    rw [List.map_cons, h a (by simp), ih (fun x hx => h x (by simp [hx]))]

theorem regenMembers_mem (ord : OrderDoc) (req : UpdateReq)
    (pItems : Option (List LineItem)) (f : Frequency) (nums : List String)
    (dates : List Nat) (nextId : Nat) :
    ∀ x ∈ regenMembers ord req pItems f nums dates nextId,
      x.originalOrderNumber = some ord.orderNumber ∧ x.mainOrder = false ∧
      x.status = OrderStatus.pending ∧ nextId ≤ x.id := by
  intro x hx
  simp only [regenMembers, List.mem_map] at hx
  obtain ⟨i, _, rfl⟩ := hx
  exact ⟨rfl, rfl, rfl, Nat.le_add_right _ _⟩

theorem regenMembers_map_startDate (ord : OrderDoc) (req : UpdateReq)
    (pItems : Option (List LineItem)) (f : Frequency) (nums : List String)
    (dates : List Nat) (nextId : Nat) :
    (regenMembers ord req pItems f nums dates nextId).map
      (fun o => o.startDate) = dates.drop 1 := by
  unfold regenMembers
  rw [List.map_map]
  have h : ((fun o : OrderDoc => o.startDate) ∘
      regenMember ord req pItems f nums dates nextId) =
      (fun i => dates.getD i 0) := by
    funext i
    rfl
  rw [h]
  exact range_drop_map_getD dates

/-- C4 amended.  When a schedule update (touching frequency, startDate
or endDate) on a main order passes validation and the batched number
allocation for the regenerated schedule *succeeds*, the update succeeds;
the regeneration deletes only `pending` series members — a member in any
other status (in particular `in_progress`) survives — anything removed
from storage besides pending members is the main order itself (replaced
in place by its updated version); and afterwards the series' pending
members are exactly one fresh member per delivery date after the first,
consistent with the new parameters. -/
theorem updateOrder_regen_spec (db : DB) (oid : Nat) (req : UpdateReq)
    (year ts : Nat) (ord : OrderDoc) (pItems : Option (List LineItem))
    (f : Frequency) (nums : List String)
    (hinv : DBInv db)
    (hfresh : ∀ o ∈ db.orders, o.id < db.nextId)
    (hfind : db.orders.find? (fun o => o.id == oid) = some ord)
    (hcust : updCustomer db req = .ok ())
    (hmiss : (if ord.status ≠ OrderStatus.draft
        then missingMsgs (updChecks ord req) else []) = [])
    (hitems : updItems db ord req = .ok pItems)
    (hrec : isRecurringUpdate req = true)
    (hmain : ord.mainOrder = true)
    (hfreq : newFreqO ord req = some f)
    (halloc : generateUniqueOrderNumbers year
        ((generateRecurringDates (newStartN ord req) (newEndN ord req) f).length - 1)
        ((db.orders.filter (keepOnRegen ord.orderNumber)).map
          (fun o => o.orderNumber)) ts = .ok nums) :
    (updateOrder db oid req year ts).2 = .ok () ∧
    (∀ o ∈ db.orders, o.originalOrderNumber = some ord.orderNumber →
      o.mainOrder = false → o.status ≠ OrderStatus.pending →
      o ∈ (updateOrder db oid req year ts).1.orders) ∧
    (∀ o ∈ db.orders, o ∉ (updateOrder db oid req year ts).1.orders →
      o.id = ord.id ∨ (o.originalOrderNumber = some ord.orderNumber ∧
        o.mainOrder = false ∧ o.status = OrderStatus.pending)) ∧
    (((updateOrder db oid req year ts).1.orders.filter (fun o =>
        o.originalOrderNumber == some ord.orderNumber && !o.mainOrder &&
        o.status == OrderStatus.pending)).map (fun o => o.startDate) =
      (generateRecurringDates (newStartN ord req) (newEndN ord req) f).drop 1) := by
  have hord : ord ∈ db.orders := List.mem_of_find?_eq_some hfind
  have hmms : (regenMembers ord req pItems f nums
      (generateRecurringDates (newStartN ord req) (newEndN ord req) f)
      db.nextId).map (fun o =>
        if o.id == ord.id then applyReq ord req pItems else o) =
      regenMembers ord req pItems f nums
        (generateRecurringDates (newStartN ord req) (newEndN ord req) f)
        db.nextId := by
    refine map_eq_self_of _ _ (fun x hx => ?_)
    obtain ⟨_, _, _, hid⟩ := regenMembers_mem _ _ _ _ _ _ _ x hx
    have hlt := hfresh ord hord
    have hne : (x.id == ord.id) = false := by
      simp only [beq_eq_false_iff_ne]
      omega
    rw [hne]
    rfl
  unfold updateOrder
  rw [hfind]
  dsimp only
  rw [hcust]
  dsimp only
  rw [hmiss]
  dsimp only
  rw [hitems]
  dsimp only
  unfold updRegen
  rw [if_pos ⟨hrec, hmain⟩, hfreq]
  dsimp only
  rw [halloc]
  dsimp only
  refine ⟨rfl, ?_, ?_, ?_⟩
  · -- a non-pending member survives the deleteMany and the final save
    intro o ho horig homain hostat
    rw [List.map_append, hmms]
    have hs : (o.status == OrderStatus.pending) = false := by
      simpa using hostat
    have hkeep : keepOnRegen ord.orderNumber o = true := by
      simp [keepOnRegen, hs]
    have hne : (o.id == ord.id) = false := by
      rw [beq_eq_false_iff_ne]
      intro heq
      have : o = ord := id_inj_of_inv db hinv o ho ord hord heq
      rw [this, hmain] at homain
      cases homain
    refine List.mem_append.mpr (Or.inl (List.mem_map.mpr
      ⟨o, List.mem_filter.mpr ⟨ho, hkeep⟩, ?_⟩))
    rw [hne]
    rfl
  · -- anything removed besides the replaced main order was a pending member
    intro o ho hno
    by_contra hcon
    push_neg at hcon
    obtain ⟨hid, hmem2⟩ := hcon
    apply hno
    rw [List.map_append, hmms]
    have hkeep : keepOnRegen ord.orderNumber o = true := by
      rcases hko : keepOnRegen ord.orderNumber o with _ | _
      · exfalso
        unfold keepOnRegen at hko
        have hko2 : (o.originalOrderNumber == some ord.orderNumber &&
            !o.mainOrder && o.status == OrderStatus.pending) = true := by
          simpa using hko
        simp only [Bool.and_eq_true, beq_iff_eq, Bool.not_eq_true'] at hko2
        exact hmem2 hko2.1.1 hko2.1.2 hko2.2
      · rfl
    have hne : (o.id == ord.id) = false := by
      rw [beq_eq_false_iff_ne]
      exact hid
    refine List.mem_append.mpr (Or.inl (List.mem_map.mpr
      ⟨o, List.mem_filter.mpr ⟨ho, hkeep⟩, ?_⟩))
    rw [hne]
    rfl
  · -- the pending members of the series afterwards are the fresh batch
    rw [List.map_append, hmms, List.filter_append]
    have hleft : ((db.orders.filter (keepOnRegen ord.orderNumber)).map
        (fun o => if o.id == ord.id then applyReq ord req pItems else o)).filter
        (fun o => o.originalOrderNumber == some ord.orderNumber &&
          !o.mainOrder && o.status == OrderStatus.pending) = [] := by
      refine List.filter_eq_nil_iff.mpr (fun y hy => ?_)
      obtain ⟨x, hx, hxy⟩ := List.mem_map.mp hy
      obtain ⟨hxmem, hxkeep⟩ := List.mem_filter.mp hx
      by_cases hxi : (x.id == ord.id) = true
      · rw [hxi] at hxy
        simp only [if_true] at hxy
        rw [← hxy]
        intro hP
        simp only [Bool.and_eq_true, Bool.not_eq_true'] at hP
        have hmo := hP.1.2
        have hap : (applyReq ord req pItems).mainOrder = ord.mainOrder := rfl
        rw [hap, hmain] at hmo
        cases hmo
      · have hxi' : (x.id == ord.id) = false := by
          rw [Bool.eq_false_iff]
          exact hxi
        rw [hxi'] at hxy
        simp only [Bool.false_eq_true, if_false] at hxy
        rw [← hxy]
        unfold keepOnRegen at hxkeep
        intro hxp
        rw [hxp] at hxkeep
        cases hxkeep
    have hright : (regenMembers ord req pItems f nums
        (generateRecurringDates (newStartN ord req) (newEndN ord req) f)
        db.nextId).filter
        (fun o => o.originalOrderNumber == some ord.orderNumber &&
          !o.mainOrder && o.status == OrderStatus.pending) =
        regenMembers ord req pItems f nums
          (generateRecurringDates (newStartN ord req) (newEndN ord req) f)
          db.nextId := by
      refine List.filter_eq_self.mpr (fun x hx => ?_)
      obtain ⟨h1, h2, h3, _⟩ := regenMembers_mem _ _ _ _ _ _ _ x hx
      simp [h1, h2, h3]
    rw [hleft, hright, List.nil_append]
    exact regenMembers_map_startDate _ _ _ _ _ _ _

/-- Witness for the amended C4: extending the end date to 14 succeeds,
the `in_progress` member 3 survives, only the pending member 2 (and the
replaced main order) leave storage, and the fresh pending members sit at
the new dates 7 and 14. -/
theorem updateOrder_regen_spec_witness :
    (updateOrder c4wdb 1 c4req 2024 0).2 = .ok () ∧
    (∀ o ∈ c4wdb.orders, o.originalOrderNumber = some c4word.orderNumber →
      o.mainOrder = false → o.status ≠ OrderStatus.pending →
      o ∈ (updateOrder c4wdb 1 c4req 2024 0).1.orders) ∧
    (∀ o ∈ c4wdb.orders, o ∉ (updateOrder c4wdb 1 c4req 2024 0).1.orders →
      o.id = c4word.id ∨ (o.originalOrderNumber = some c4word.orderNumber ∧
        o.mainOrder = false ∧ o.status = OrderStatus.pending)) ∧
    (((updateOrder c4wdb 1 c4req 2024 0).1.orders.filter (fun o =>
        o.originalOrderNumber == some c4word.orderNumber && !o.mainOrder &&
        o.status == OrderStatus.pending)).map (fun o => o.startDate) =
      (generateRecurringDates (newStartN c4word c4req)
        (newEndN c4word c4req) .weekly).drop 1) :=
  updateOrder_regen_spec c4wdb 1 c4req 2024 0 c4word none .weekly
    (batchNumbers 2024 4 2) (by unfold DBInv; decide) (by decide) (by rfl)
    (by rfl) (by rfl) (by rfl) (by rfl) (by rfl) (by rfl) (by rfl)

end Delivery
